import Mathlib

/-!
Verification development for the release-bot repository (Go).

The webhook bot (`src/main.go`) keeps GitHub project-board card placement and
issue labels in sync; the batch tool (`src/utilities/transfer-cards/main.go`,
second revision) migrates cards between boards in priority order.  All remote
GitHub calls are modelled by explicit inputs (board snapshots, listings,
per-call outcome environments) and by traces of issued calls; pure Go string
manipulation is translated to Lean functions over `List Char` so that every
definition evaluates by `decide`.
-/

/-! ## Go string primitives -/

/-- Go `strings.Split(s, "/")` restricted to a one-character separator,
on the character list of the string.  `splitOnCharGo sep cs` never returns
`[]`; splitting the empty string yields `[[]]`, matching Go. -/
def splitOnCharGo (sep : Char) : List Char → List (List Char)
  | [] => [[]]
  | c :: rest =>
    if c = sep then [] :: splitOnCharGo sep rest
    else
      match splitOnCharGo sep rest with
      | [] => [[c]]
      | h :: t => (c :: h) :: t

/-- Joining with the separator, the left inverse of `splitOnCharGo`. -/
def joinSepGo (sep : Char) : List (List Char) → List Char
  | [] => []
  | [x] => x
  | x :: xs => x ++ sep :: joinSepGo sep xs

/-- Whether `sub` occurs as a contiguous sublist of `l`. -/
def listInfixGo (sub : List Char) : List Char → Bool
  | [] => sub.isEmpty
  | c :: rest => sub.isPrefixOf (c :: rest) || listInfixGo sub rest

/-- Go `strings.Contains(s, sub)`. -/
def strContainsGo (s sub : String) : Bool :=
  listInfixGo sub.data s.data

/-- Go `strings.HasPrefix(s, pre)`. -/
def hasPrefixGo (s pre : String) : Bool :=
  pre.data.isPrefixOf s.data

/-! ## Label Codec (`splitLabel`, src/main.go:508-514)

Go: `splitResults := strings.Split(label, "/")`; error unless
`len(splitResults) == 2`; on success returns `(splitResults[0], splitResults[1])`.
`none` models the `MalformedLabel` error. -/

def splitLabel (label : String) : Option (String × String) :=
  match splitOnCharGo '/' label.data with
  | [p, s] => some (⟨p⟩, ⟨s⟩)
  | _ => none

/-! ## Board Resolver (`getProject`, src/main.go:516-534)

The repository's board listing is modelled as its sequence of pages; a single
`ListProjects` call with no page option returns the first page.  The Go
function issues exactly one call and scans only that first page for the first
project whose name has the requested release prefix (`strings.HasPrefix`). -/

structure ProjectM where
  id : Nat
  name : String
deriving DecidableEq

def getProject (pages : List (List ProjectM)) (pre : String) : Option ProjectM :=
  (pages.headD []).find? (fun p => hasPrefixGo p.name pre)

/-- Modelled from the spec: `findBoard` "lists all boards for the repository
(paginated; must exhaust pagination ...), returns the first whose name has
`prefix` as a string prefix" — the exhaustive-pagination behaviour the spec
describes, for comparison with the source's `getProject`. -/
def findBoardSpecModel (pages : List (List ProjectM)) (pre : String) : Option ProjectM :=
  pages.flatten.find? (fun p => hasPrefixGo p.name pre)

/-! ## Issue-opened handler (`handleIssueOpenedEvent`, src/main.go:98-152)

The handler lists every repository label (paginated, exhaustively), the labels
already applied to the new issue, and, for each repository label matching the
unanchored regexp `.*/triage` (i.e. containing `"/triage"`), parses it with
`splitLabel` — a parse failure logs and RETURNS from the whole handler — then
skips it unless its release prefix resolves to an open board and it is not yet
applied.  Collected labels are added in one `AddLabelsToIssue` call, issued
only when the list is non-empty.  The result is the list of issued add-labels
calls; `collectTriageLabels` returning `none` models the early return. -/

def collectTriageLabels (pages : List (List ProjectM)) (applied : String → Bool) :
    List String → Option (List String)
  | [] => some []
  | l :: rest =>
    if strContainsGo l "/triage" then
      match splitLabel l with
      | none => none
      | some (pre, _) =>
        if (getProject pages pre).isSome then
          if applied l then collectTriageLabels pages applied rest
          else (collectTriageLabels pages applied rest).map (l :: ·)
        else collectTriageLabels pages applied rest
    else collectTriageLabels pages applied rest

def handleIssueOpenedEvent (repoLabels : List String) (applied : String → Bool)
    (pages : List (List ProjectM)) : List (List String) :=
  match collectTriageLabels pages applied repoLabels with
  | none => []
  | some ls => if ls.isEmpty then [] else [ls]

/-- The predicate the claim describes: matches `.*/triage`, its release prefix
resolves to an open board (through the source's first-page resolver), and it is
not already applied to the issue. -/
def triageApplicable (pages : List (List ProjectM)) (applied : String → Bool)
    (l : String) : Bool :=
  strContainsGo l "/triage" &&
    (match splitLabel l with
     | some (pre, _) => (getProject pages pre).isSome
     | none => false) &&
    !(applied l)

/-! ## Release prefix (`rc.ReplaceAllString(name, "")` with `rc = -rc.*$`)

The Go regexp `-rc.*$` (RE2, leftmost match, `.` not matching newline, `$` at
end of text) matches at the leftmost occurrence of `-rc` that is followed only
by non-newline characters up to the end of the string, and the match then
extends to the end; replacing it with `""` truncates the string there. -/

def stripRCAux : List Char → List Char
  | [] => []
  | c :: rest =>
    if c = '-' ∧ ['r', 'c'].isPrefixOf rest ∧ '\n' ∉ rest.drop 2 then []
    else c :: stripRCAux rest

def stripRC (s : String) : String :=
  ⟨stripRCAux s.data⟩

/-! ## Card-changed handler (`handleProjectCardChangedEvent`, src/main.go:414-476)

For a card created into or moved to a column, the handler computes the release
prefix from the owning board's name, the three canonical labels, and the stage
for the card's current column (the inverse column→stage table, empty for
non-canonical columns).  For the label equal to `{prefix}/{stage}` it issues an
add-labels call only when the label is absent; for every other canonical label
it issues a remove call only when the label is present.  The result is the
ordered list of issued label calls (resolution of the card's column/board and
the issue number from the card's content URL are premises of the event and are
not modelled; their failure aborts with no calls issued). -/

def stageForColumn (n : String) : String :=
  if n = "Triage" then "triage"
  else if n = "Cherry Pick" then "cherry-pick"
  else if n = "Cherry Picked" then "cherry-picked"
  else ""

inductive CardSyncAction where
  | addLabels (ls : List String)
  | removeLabel (l : String)
deriving DecidableEq

def handleProjectCardChangedEvent (projectName columnName : String)
    (applied : String → Bool) : List CardSyncAction :=
  let labelBase := stripRC projectName
  let labelsToDelete := [labelBase ++ "/triage", labelBase ++ "/cherry-pick",
    labelBase ++ "/cherry-picked"]
  let colStage := stageForColumn columnName
  labelsToDelete.foldl (fun acc label =>
    if label = labelBase ++ "/" ++ colStage then
      if !(applied label) then acc ++ [.addLabels [label]] else acc
    else
      if applied label then acc ++ [.removeLabel label] else acc) []

/-! ## Provisioning (`handleProjectCreatedEvent`, src/main.go:340-385;
`allLabels`, src/main.go:77-94)

On a board-created event the handler creates the columns `Triage`,
`Cherry Pick`, `Cherry Picked` in that order (a creation failure logs and
returns), computes the three canonical labels from the board name with the
`-rc.*$` suffix stripped, fetches the repository's existing labels, removes the
ones already present from the to-create set, and creates the rest in order (a
creation failure logs and returns).  The environment gives the outcome of each
remote call; the result is the ordered trace of issued creation calls.  Go
iterates `labelsToCreate` as a map with unspecified order; the model fixes the
insertion order triage, cherry-pick, cherry-picked.

Note the argument order: `allLabels` is declared `allLabels(name, owner)` and
queries the repository `owner/name` by calling `ListLabels(ctx, owner, name)`,
but `handleProjectCreatedEvent` invokes `mon.allLabels(owner, name)` — owner
login first — so the existing-label lookup is keyed by the SWAPPED pair
(repo-name as owner, owner-login as repo). -/

inductive ProvAction where
  | createColumn (name : String)
  | createLabel (name color : String)
deriving DecidableEq

structure ProvEnv where
  columnOk : String → Bool
  repoLabels : String → String → Except Unit (List String)
  labelOk : String → Bool

/-- `allLabels(name, owner)` calls `ListLabels(ctx, owner, name)`: the remote
is consulted with its owner argument first. -/
def allLabels (env : ProvEnv) (name owner : String) : Except Unit (List String) :=
  env.repoLabels owner name

def createColumnsProv (env : ProvEnv) : List String → List ProvAction × Bool
  | [] => ([], true)
  | c :: rest =>
    if env.columnOk c then
      ((.createColumn c) :: (createColumnsProv env rest).1,
        (createColumnsProv env rest).2)
    else ([.createColumn c], false)

def createLabelsProv (env : ProvEnv) : List (String × String) → List ProvAction
  | [] => []
  | (n, c) :: rest =>
    if env.labelOk n then (.createLabel n c) :: createLabelsProv env rest
    else [.createLabel n c]

def handleProjectCreatedEvent (env : ProvEnv) (projectName owner name : String) :
    List ProvAction :=
  let cols := createColumnsProv env ["Triage", "Cherry Pick", "Cherry Picked"]
  if !cols.2 then cols.1
  else
    let base := stripRC projectName
    let labelsToCreate := [(base ++ "/triage", "eeeeee"),
      (base ++ "/cherry-pick", "a98bf3"), (base ++ "/cherry-picked", "bfe5bf")]
    match allLabels env owner name with
    | .error _ => cols.1
    | .ok existing =>
      cols.1 ++ createLabelsProv env
        (labelsToCreate.filter (fun p => !(existing.contains p.1)))

/-- Environment for the C4 failing input: every creation succeeds, the event's
repository `docker/release-tracking` exists and already carries the label
`18.09-ee/triage`, and no other repository exists (any other lookup errors, as
GitHub answers for a non-existent repository). -/
def c4Env : ProvEnv :=
  { columnOk := fun _ => true
    repoLabels := fun owner repo =>
      if owner = "docker" ∧ repo = "release-tracking" then
        .ok ["18.09-ee/triage"]
      else .error ()
    labelOk := fun _ => true }

/-! ## Label→Placement reconciler (`handleLabelEvent`, src/main.go:168-290)

After parsing the label and resolving the board, the handler lists the board's
columns and, per column, its cards, tracking (with Go zero-value sentinels,
later assignments overwriting earlier ones):
  * `destColumn`/`columnID` — the column whose name equals the column name for
    the label's stage (table lookup with identity fallback);
  * `sourceColumn`/`cardID` — the card whose content URL equals the issue URL.
If `destColumn` stayed the zero value it logs and returns; if `cardID` stayed
`0` it creates a card in the destination column, content type `PullRequest`
when the issue is a pull request else `Issue`; if the found card's column has
the destination's id it is a no-op; otherwise it moves the card to the
destination column at position `top`.  A board snapshot is the list of columns
paired with the card list the per-column listing returns. -/

structure ProjectColumn where
  id : Nat
  name : String
deriving DecidableEq

structure ProjectCard where
  id : Nat
  contentURL : String
deriving DecidableEq

structure LabelScan where
  destColumn : ProjectColumn
  columnID : Nat
  sourceColumn : ProjectColumn
  cardID : Nat
deriving DecidableEq

def emptyColumn : ProjectColumn := ⟨0, ""⟩

def initScan : LabelScan := ⟨emptyColumn, 0, emptyColumn, 0⟩

def scanCards (col : ProjectColumn) (issueURL : String) (st : LabelScan)
    (cards : List ProjectCard) : LabelScan :=
  cards.foldl (fun s card =>
    if card.contentURL = issueURL then
      { s with sourceColumn := col, cardID := card.id }
    else s) st

def scanStep (issueURL colName : String) (st : LabelScan)
    (entry : ProjectColumn × List ProjectCard) : LabelScan :=
  scanCards entry.1 issueURL
    (if entry.1.name = colName then
      { st with destColumn := entry.1, columnID := entry.1.id }
    else st) entry.2

def scanBoard (board : List (ProjectColumn × List ProjectCard))
    (issueURL colName : String) : LabelScan :=
  board.foldl (scanStep issueURL colName) initScan

/-- The stage→column-name table with identity fallback: the Go map lookup
yields `""` for a missing key, and `""` is replaced by the raw stage. -/
def columnNameFor (suffix : String) : String :=
  let n := if suffix = "triage" then "Triage"
    else if suffix = "cherry-pick" then "Cherry Pick"
    else if suffix = "cherry-picked" then "Cherry Picked"
    else ""
  if n = "" then suffix else n

inductive LabelAction where
  | createCard (columnID contentID : Nat) (contentType : String)
  | moveCard (cardID : Nat) (position : String) (columnID : Nat)
  | noop
deriving DecidableEq

def handleLabelEvent (board : List (ProjectColumn × List ProjectCard))
    (labelName issueURL : String) (issueID : Nat) (isPR : Bool) :
    Option LabelAction :=
  match splitLabel labelName with
  | none => none
  | some (_, labelSuffix) =>
    let colName := columnNameFor labelSuffix
    let st := scanBoard board issueURL colName
    if st.destColumn = emptyColumn then none
    else if st.cardID = 0 then
      some (.createCard st.columnID issueID
        (if isPR then "PullRequest" else "Issue"))
    else if st.sourceColumn.id = st.destColumn.id then some .noop
    else some (.moveCard st.cardID "top" st.columnID)

/-- The last element of `l` on which `f` yields a value — the result of a Go
loop that overwrites a variable at every hit. -/
def lastSome (f : α → Option β) : List α → Option β
  | [] => none
  | x :: rest => (lastSome f rest).elim (f x) some

/-- The column the scan resolves as destination: the last column whose name
matches, mirroring the loop's overwrite semantics. -/
def lastColMatch (board : List (ProjectColumn × List ProjectCard))
    (colName : String) : Option ProjectColumn :=
  lastSome (fun e => if e.1.name = colName then some e.1 else none) board

/-- All (column, card) pairs of a board snapshot, in scan order. -/
def boardPairs (board : List (ProjectColumn × List ProjectCard)) :
    List (ProjectColumn × ProjectCard) :=
  board.flatMap (fun e => e.2.map (fun c => (e.1, c)))

/-- All cards on the board whose content URL is the issue's, with their
columns, in scan order. -/
def cardMatches (board : List (ProjectColumn × List ProjectCard))
    (issueURL : String) : List (ProjectColumn × ProjectCard) :=
  (boardPairs board).filter (fun pr => pr.2.contentURL = issueURL)

/-! ## Provisioning poll (`releaseBotDone`, `createProject`,
src/utilities/transfer-cards/main.go:228-273, second revision)

The poll keeps `retries` (starting at 1) and `columnsLength` (starting at 0)
and loops while `retries < 4 && columnsLength != 3`: it lists the new board's
columns (an error returns `(false, err)` immediately), stores their number,
increments `retries` and sleeps 5 seconds (real time is not modelled).  The
loop body therefore runs at most 3 times, at `retries = 1, 2, 3`; the fuel
argument `3` is exactly that bound, and exhausted fuel coincides with the
`retries < 4` guard failing.  `obs i` is the outcome of the column listing
issued at `retries = i`.  After the loop the poll returns
`columnsLength == 3`.  `createProject` then fails with "The release bot did
not create the expected project columns" unless the poll returned `true`. -/

def releaseBotLoop (obs : Nat → Except Unit Nat) :
    Nat → Nat → Nat → Except Unit Nat
  | 0, _, columnsLength => .ok columnsLength
  | fuel + 1, retries, columnsLength =>
    if retries < 4 ∧ columnsLength ≠ 3 then
      match obs retries with
      | .error e => .error e
      | .ok n => releaseBotLoop obs fuel (retries + 1) n
    else .ok columnsLength

def releaseBotDone (obs : Nat → Except Unit Nat) : Except Unit Bool :=
  (releaseBotLoop obs 3 1 0).map (fun n => n == 3)

inductive CreateProjectOutcome where
  | ok
  | pollErr
  | provisioningIncomplete
deriving DecidableEq

/-- The tail of `createProject` after the poll: propagate a poll error, succeed
when the poll reports completion, otherwise fail with the
provisioning-did-not-complete error. -/
def createProjectAfterPoll (r : Except Unit Bool) : CreateProjectOutcome :=
  match r with
  | .error _ => .pollErr
  | .ok true => .ok
  | .ok false => .provisioningIncomplete

/-! ## Priority-ordered migration (`moveIssues`, `createCards`, `deleteCards`,
src/utilities/transfer-cards/main.go:328-437, second revision)

Per migrated column, `moveIssues` buckets the source cards by the related
issue's priority label, then runs `deleteCards` on the buckets in the order
p2, p1, p0, none and `createCards` on the buckets in the same order
p2, p1, p0, none.  Priority extraction: `var priority string`; for every issue
label whose name CONTAINS `"priority"`, `priority = strings.Split(name, "/")[1]`
— the last matching label wins, and a matching label without `/` panics with an
index-out-of-range (modelled as `none`).  `getRelatedIssue` returns the first
issue whose URL equals the card's content URL; a card with no related issue
exits the run.  Card creation calls `CreateProjectCard(destColumnID,
ContentID: relatedIssue.ID)`; the claim's premise that each creation inserts at
the top of the destination column is modelled by consing the created content id
onto the destination column's top-to-bottom list. -/

structure MigIssue where
  id : Nat
  url : String
  labels : List String
deriving DecidableEq

structure MigCard where
  id : Nat
  contentURL : String
deriving DecidableEq

def getRelatedIssue (card : MigCard) (issues : List MigIssue) : Option MigIssue :=
  issues.find? (fun i => card.contentURL = i.url)

def cardPriority (labels : List String) : Option String :=
  labels.foldl (fun acc l =>
    acc.bind (fun p =>
      if strContainsGo l "priority" then
        ((splitOnCharGo '/' l.data)[1]?).map (fun cs => (⟨cs⟩ : String))
      else some p)) (some "")

structure Buckets where
  p0 : List MigCard
  p1 : List MigCard
  p2 : List MigCard
  noP : List MigCard
deriving DecidableEq

def bucketStep (issues : List MigIssue) (acc : Option Buckets) (card : MigCard) :
    Option Buckets :=
  acc.bind fun b =>
    (getRelatedIssue card issues).bind fun iss =>
      (cardPriority iss.labels).map fun pr =>
        if pr = "p0" then { b with p0 := b.p0 ++ [card] }
        else if pr = "p1" then { b with p1 := b.p1 ++ [card] }
        else if pr = "p2" then { b with p2 := b.p2 ++ [card] }
        else { b with noP := b.noP ++ [card] }

def bucketize (issues : List MigIssue) (cards : List MigCard) : Option Buckets :=
  cards.foldl (bucketStep issues) (some ⟨[], [], [], []⟩)

/-- One `createCards` run over a bucket, tracking only the destination
column's top-to-bottom content list: each successful creation inserts the
related issue's id at the top (the claim's append-to-top premise). -/
def createList (issues : List MigIssue) (cards : List MigCard) (dest : List Nat) :
    Option (List Nat) :=
  match cards with
  | [] => some dest
  | c :: rest =>
    (getRelatedIssue c issues).bind fun iss =>
      createList issues rest (iss.id :: dest)

/-- The destination column (top-to-bottom content-id list, starting from
`dest`) after `moveIssues` processes one column in a non-dry-run: buckets are
created in the source order p2, p1, p0, none (main.go:432-435). -/
def migrateColumnDest (issues : List MigIssue) (cards : List MigCard)
    (dest : List Nat) : Option (List Nat) :=
  (bucketize issues cards).bind fun b =>
    (createList issues b.p2 dest).bind fun d1 =>
      (createList issues b.p1 d1).bind fun d2 =>
        (createList issues b.p0 d2).bind fun d3 =>
          createList issues b.noP d3

def prioOf (issues : List MigIssue) (c : MigCard) : Option String :=
  (getRelatedIssue c issues).bind (fun i => cardPriority i.labels)

def relatedId (issues : List MigIssue) (c : MigCard) : Nat :=
  ((getRelatedIssue c issues).map (fun i => i.id)).getD 0

def isPrio (issues : List MigIssue) (s : String) (c : MigCard) : Bool :=
  prioOf issues c == some s

def noPrio (issues : List MigIssue) (c : MigCard) : Bool :=
  (prioOf issues c).any (fun p => !(p == "p0" || p == "p1" || p == "p2"))

/-- The source column of the spec's migration-ordering scenario: four cards
whose issues carry, in column order, priority p1, p0, none, p2. -/
def c1Issues : List MigIssue :=
  [⟨1, "u1", ["priority/p1"]⟩, ⟨2, "u2", ["priority/p0"]⟩,
   ⟨3, "u3", []⟩, ⟨4, "u4", ["priority/p2"]⟩]

def c1Cards : List MigCard :=
  [⟨11, "u1"⟩, ⟨12, "u2"⟩, ⟨13, "u3"⟩, ⟨14, "u4"⟩]

/-! ## Migration call order (`main`, src/utilities/transfer-cards/main.go:439-465)

After both boards resolve, `main` issues
`UpdateProject(sourceProject.ID, {State: "closed"})` — only when not in
dry-run — and then calls `moveIssues`, which per column deletes the buckets
(p2, p1, p0, none) and then creates them (p2, p1, p0, none); every delete and
create call sits inside `if !*dryrun`.  The trace lists the remote mutation
calls in program order for runs whose calls succeed; a failing delete exits
mid-run, truncating the trace to a prefix, which preserves the order stated
here. -/

inductive MigOp where
  | updateProject (pid : Nat) (state : String)
  | deleteCard (cardID : Nat)
  | createCard (contentID : Nat)
deriving DecidableEq

def deleteCardsTrace (dryrun : Bool) (cards : List MigCard) : List MigOp :=
  if dryrun then [] else cards.map (fun c => .deleteCard c.id)

def createCardsTrace (dryrun : Bool) (issues : List MigIssue)
    (cards : List MigCard) : List MigOp :=
  if dryrun then [] else cards.map (fun c => .createCard (relatedId issues c))

def moveIssuesColumnTrace (dryrun : Bool) (issues : List MigIssue)
    (cards : List MigCard) : List MigOp :=
  match bucketize issues cards with
  | none => []
  | some b =>
    deleteCardsTrace dryrun b.p2 ++ deleteCardsTrace dryrun b.p1 ++
    deleteCardsTrace dryrun b.p0 ++ deleteCardsTrace dryrun b.noP ++
    createCardsTrace dryrun issues b.p2 ++ createCardsTrace dryrun issues b.p1 ++
    createCardsTrace dryrun issues b.p0 ++ createCardsTrace dryrun issues b.noP

def moveIssuesTrace (dryrun : Bool) (issues : List MigIssue)
    (columnCards : List (List MigCard)) : List MigOp :=
  (columnCards.map (moveIssuesColumnTrace dryrun issues)).flatten

def mainTrace (dryrun : Bool) (sourceProjectID : Nat) (issues : List MigIssue)
    (columnCards : List (List MigCard)) : List MigOp :=
  (if !dryrun then [.updateProject sourceProjectID "closed"] else []) ++
    moveIssuesTrace dryrun issues columnCards

def isCardOp : MigOp → Bool
  | .deleteCard _ => true
  | .createCard _ => true
  | .updateProject _ _ => false

/-! ## Migration card creation error handling (`createCards`,
src/utilities/transfer-cards/main.go:402-427, second revision)

Per bucket card, in a non-dry-run: resolve the related issue (failure exits the
run), issue `CreateProjectCard`, and if the call returned a non-nil error
switch on `resp.StatusCode`: 402 hits a bare `break` (silently tolerated), 422
logs a warning ("Issue already exists in project"), any other status logs an
error; in every case the per-card info line is then logged and the loop
continues.  `resp` is the `*github.Response`: for an API error status it is
non-nil (`CreateOutcome.httpErr status`), but for an error with no HTTP
response — a transport/request failure — `resp` is nil and `resp.StatusCode`
dereferences a nil pointer, crashing the run (`CreateOutcome.noResponse`,
result `none`).  The Go `switch` on the status is modelled by the equivalent
equality tests.  `createCardsLogs` returns the log-event list of one bucket
run keyed by card id, with the related issue's id standing for the issue in
each log event. -/

inductive CreateOutcome where
  | ok
  | httpErr (status : Nat)
  | noResponse
deriving DecidableEq

inductive CreateLogEvent where
  | warnDuplicate (issueID : Nat)
  | errorLogged (issueID : Nat)
  | infoMove (issueID : Nat)
deriving DecidableEq

def createCardsLogs (outcome : Nat → CreateOutcome) (issues : List MigIssue) :
    List MigCard → Option (List CreateLogEvent)
  | [] => some []
  | c :: rest =>
    (getRelatedIssue c issues).bind fun iss =>
      match outcome c.id with
      | .noResponse => none
      | .ok => (createCardsLogs outcome issues rest).map
          (fun t => .infoMove iss.id :: t)
      | .httpErr s =>
        if s = 402 then
          (createCardsLogs outcome issues rest).map
            (fun t => .infoMove iss.id :: t)
        else if s = 422 then
          (createCardsLogs outcome issues rest).map
            (fun t => .warnDuplicate iss.id :: .infoMove iss.id :: t)
        else
          (createCardsLogs outcome issues rest).map
            (fun t => .errorLogged iss.id :: .infoMove iss.id :: t)

/-- The log events one card contributes, per its creation outcome. -/
def createLogFor (outcome : Nat → CreateOutcome) (issues : List MigIssue)
    (c : MigCard) : List CreateLogEvent :=
  match outcome c.id with
  | .noResponse => []
  | .ok => [.infoMove (relatedId issues c)]
  | .httpErr s =>
    if s = 402 then [.infoMove (relatedId issues c)]
    else if s = 422 then
      [.warnDuplicate (relatedId issues c), .infoMove (relatedId issues c)]
    else
      [.errorLogged (relatedId issues c), .infoMove (relatedId issues c)]

theorem splitOnCharGo_ne_nil (sep : Char) (cs : List Char) :
    splitOnCharGo sep cs ≠ [] := by
  induction cs with
  | nil => simp [splitOnCharGo]
  | cons c rest ih =>
    simp only [splitOnCharGo]
    split
    · simp
    · cases h : splitOnCharGo sep rest with
      | nil => simp
      | cons h t => simp

theorem length_splitOnCharGo (sep : Char) (cs : List Char) :
    (splitOnCharGo sep cs).length = cs.count sep + 1 := by
  induction cs with
  | nil => simp [splitOnCharGo]
  | cons c rest ih =>
    simp only [splitOnCharGo]
    by_cases hc : c = sep
    · subst hc
      simp [List.count_cons, ih]
    · rw [if_neg hc]
      cases h : splitOnCharGo sep rest with
      | nil => exact absurd h (splitOnCharGo_ne_nil sep rest)
      | cons hd tl =>
        have := ih
        rw [h] at this
        simp only [List.length_cons] at this ⊢
        simp [List.count_cons, hc, this]

theorem joinSepGo_splitOnCharGo (sep : Char) (cs : List Char) :
    joinSepGo sep (splitOnCharGo sep cs) = cs := by
  induction cs with
  | nil => simp [splitOnCharGo, joinSepGo]
  | cons c rest ih =>
    simp only [splitOnCharGo]
    by_cases hc : c = sep
    · subst hc
      cases h : splitOnCharGo c rest with
      | nil => exact absurd h (splitOnCharGo_ne_nil c rest)
      | cons hd tl =>
        rw [h] at ih
        simp [joinSepGo, ih]
    · rw [if_neg hc]
      cases h : splitOnCharGo sep rest with
      | nil => exact absurd h (splitOnCharGo_ne_nil sep rest)
      | cons hd tl =>
        rw [h] at ih
        cases tl with
        | nil => simp_all [joinSepGo]
        | cons a b => simp_all [joinSepGo]

/-- C3 counterexample: on `"a/"` the split yields `["a", ""]` — two parts, one of
them empty — and `splitLabel` succeeds with an empty stage instead of signalling
`MalformedLabel` as the claim requires for strings with an empty part. -/
theorem splitLabel_c3_counterexample :
    splitLabel "a/" = some ("a", "") ∧
      splitOnCharGo '/' ("a/").data = [['a'], []] := by
  constructor
  · rfl
  · rfl

/-- C3 (amended): `splitLabel s` succeeds iff splitting `s` on `/` yields exactly
two parts — equivalently iff `s` contains exactly one `/` — with no requirement
that the parts be non-empty; on success the returned pair gives back `s` when
re-joined around a single `/`.  Any other shape signals `MalformedLabel`. -/
theorem splitLabel_c3_amended (s : String) :
    ((splitLabel s).isSome ↔ s.data.count '/' = 1) ∧
      (∀ p q : String, splitLabel s = some (p, q) →
        p.data ++ '/' :: q.data = s.data) ∧
      (splitLabel s = none ↔ s.data.count '/' ≠ 1) := by
  have hlen := length_splitOnCharGo '/' s.data
  have hjoin := joinSepGo_splitOnCharGo '/' s.data
  refine ⟨?_, ?_, ?_⟩
  · unfold splitLabel
    rcases h : splitOnCharGo '/' s.data with _ | ⟨a, _ | ⟨b, _ | ⟨c, t⟩⟩⟩ <;>
      rw [h] at hlen <;> simp_all <;> omega
  · intro p q hpq
    unfold splitLabel at hpq
    rcases h : splitOnCharGo '/' s.data with _ | ⟨a, _ | ⟨b, _ | ⟨c, t⟩⟩⟩ <;>
      rw [h] at hpq
    · exact absurd hpq (by simp)
    · exact absurd hpq (by simp)
    · rw [h] at hjoin
      obtain ⟨hp, hq⟩ : (⟨a⟩ : String) = p ∧ (⟨b⟩ : String) = q := by
        simpa using hpq
      subst hp; subst hq
      simpa [joinSepGo] using hjoin
    · exact absurd hpq (by simp)
  · unfold splitLabel
    rcases h : splitOnCharGo '/' s.data with _ | ⟨a, _ | ⟨b, _ | ⟨c, t⟩⟩⟩ <;>
      rw [h] at hlen <;> simp_all <;> omega

/-- Witness for the amended C3 theorem at the concrete label `18.09-ee/triage`. -/
theorem splitLabel_c3_amended_witness :
    splitLabel "18.09-ee/triage" = some ("18.09-ee", "triage") ∧
      ("18.09-ee" : String).data ++ '/' :: ("triage" : String).data =
        ("18.09-ee/triage" : String).data := by
  refine ⟨by rfl, ?_⟩
  exact (splitLabel_c3_amended "18.09-ee/triage").2.1 "18.09-ee" "triage" (by rfl)

/-- C6 counterexample: with a two-page listing whose only matching board sits on
the second page, `getProject` returns `NotFound` even though a board matches,
while the spec-modelled exhaustive search finds it — the source never follows
the `nextPage` cursor. -/
theorem getProject_c6_counterexample :
    hasPrefixGo "18.09-ee-rc1" "18.09-ee" = true ∧
      getProject [[], [⟨1, "18.09-ee-rc1"⟩]] "18.09-ee" = none ∧
      findBoardSpecModel [[], [⟨1, "18.09-ee-rc1"⟩]] "18.09-ee" =
        some ⟨1, "18.09-ee-rc1"⟩ := by
  exact ⟨rfl, rfl, rfl⟩

/-- C6 (amended): `getProject` inspects only the first page of the board
listing: it returns `NotFound` iff no first-page board's name has the prefix as
a string prefix, any board it returns lies on the first page and matches, and
only when the listing has a single page does it agree with the spec-modelled
exhaustive search. -/
theorem getProject_c6_amended (pages : List (List ProjectM)) (pre : String) :
    (getProject pages pre = none ↔
        ∀ b ∈ pages.headD [], ¬ hasPrefixGo b.name pre = true) ∧
      (∀ b, getProject pages pre = some b →
        b ∈ pages.headD [] ∧ hasPrefixGo b.name pre = true) ∧
      (∀ ps, pages = [ps] → getProject pages pre = findBoardSpecModel pages pre) := by
  refine ⟨?_, ?_, ?_⟩
  · exact List.find?_eq_none
  · intro b hb
    unfold getProject at hb
    exact ⟨List.mem_of_find?_eq_some hb,
      List.find?_some (p := fun q : ProjectM => hasPrefixGo q.name pre) hb⟩
  · rintro ps rfl
    simp [getProject, findBoardSpecModel]

/-- Witness for the amended C6 theorem: on a one-page listing the source's
resolver and the spec-modelled exhaustive one agree. -/
theorem getProject_c6_amended_witness :
    getProject [[(⟨5, "x-rc2"⟩ : ProjectM)]] "x" =
      findBoardSpecModel [[(⟨5, "x-rc2"⟩ : ProjectM)]] "x" :=
  (getProject_c6_amended [[(⟨5, "x-rc2"⟩ : ProjectM)]] "x").2.2 _ rfl

/-- C10 counterexample: the label `"x/triage"` matches `.*/triage`, its prefix
resolves to an open board and it is not applied, so the claim requires an
add-labels call for it; but the sibling label `"a/b/triage"` also matches the
regexp and fails `splitLabel`, which aborts the whole handler — no add call is
issued at all. -/
theorem handleIssueOpenedEvent_c10_counterexample :
    strContainsGo "x/triage" "/triage" = true ∧
      (getProject [[⟨1, "x-rc1"⟩]] "x").isSome = true ∧
      ((fun _ => false) : String → Bool) "x/triage" = false ∧
      handleIssueOpenedEvent ["a/b/triage", "x/triage"] (fun _ => false)
        [[⟨1, "x-rc1"⟩]] = [] := by
  exact ⟨rfl, rfl, rfl, rfl⟩

theorem collectTriageLabels_eq_filter (pages : List (List ProjectM))
    (applied : String → Bool) (ls : List String)
    (h : ∀ l ∈ ls, strContainsGo l "/triage" = true → (splitLabel l).isSome) :
    collectTriageLabels pages applied ls =
      some (ls.filter (triageApplicable pages applied)) := by
  induction ls with
  | nil => rfl
  | cons l rest ih =>
    have hrest := ih (fun x hx => h x (List.mem_cons_of_mem l hx))
    have hl := h l (List.mem_cons_self l rest)
    simp only [collectTriageLabels, List.filter_cons]
    by_cases h1 : strContainsGo l "/triage" = true
    · rw [if_pos h1]
      cases hsl : splitLabel l with
      | none => exact absurd (hl h1) (by simp [hsl])
      | some pq =>
        obtain ⟨pre, suf⟩ := pq
        by_cases h2 : (getProject pages pre).isSome
        · by_cases h3 : applied l
          · simp [h2, h3, hrest, triageApplicable, hsl]
          · simp [h2, h3, hrest, triageApplicable, hsl, h1]
        · simp [h2, hrest, triageApplicable, hsl]
    · rw [if_neg h1, hrest]
      simp only [triageApplicable]
      have : strContainsGo l "/triage" = false := by
        cases hc : strContainsGo l "/triage"
        · rfl
        · exact absurd hc h1
      simp [this]

/-- C10 (amended): provided every repository label matching `.*/triage` parses
under `splitLabel` (exactly one `/`), the issue-opened handler issues a single
add-labels call containing exactly the labels that match `.*/triage`, whose
prefix resolves to an open board via the source's first-page board resolver,
and which are not already applied — and no call when no such label exists.  A
matching label that fails to parse aborts the event with no call issued. -/
theorem handleIssueOpenedEvent_c10_amended (repoLabels : List String)
    (applied : String → Bool) (pages : List (List ProjectM))
    (h : ∀ l ∈ repoLabels, strContainsGo l "/triage" = true → (splitLabel l).isSome) :
    handleIssueOpenedEvent repoLabels applied pages =
      (if (repoLabels.filter (triageApplicable pages applied)).isEmpty then []
       else [repoLabels.filter (triageApplicable pages applied)]) := by
  simp only [handleIssueOpenedEvent, collectTriageLabels_eq_filter pages applied repoLabels h]

/-- Witness for the amended C10 theorem on a concrete repository. -/
theorem handleIssueOpenedEvent_c10_amended_witness :
    handleIssueOpenedEvent ["x/triage", "plain", "z/triage"]
      (fun l => l == "z/triage") [[⟨1, "x-rc1"⟩]] = [["x/triage"]] :=
  (handleIssueOpenedEvent_c10_amended ["x/triage", "plain", "z/triage"]
    (fun l => l == "z/triage") [[⟨1, "x-rc1"⟩]] (by decide)).trans (by rfl)

theorem strAppend_left_cancel {p a b : String} (h : p ++ a = p ++ b) : a = b := by
  apply String.ext
  have h2 := congrArg String.data h
  rw [String.data_append, String.data_append] at h2
  exact List.append_cancel_left h2

theorem strAppend_ne_of_ne {p a b : String} (h : a ≠ b) : p ++ a ≠ p ++ b :=
  fun hc => h (strAppend_left_cancel hc)

/-- C5: when the card's column is one of the three canonical columns, the
canonical label for that column is already applied, and the other two canonical
labels are absent, the Placement→Label reconciliation issues no add-labels and
no remove-label calls. -/
theorem handleProjectCardChangedEvent_c5 (projectName columnName : String)
    (applied : String → Bool)
    (hcol : columnName = "Triage" ∨ columnName = "Cherry Pick" ∨
      columnName = "Cherry Picked")
    (happ : applied (stripRC projectName ++ "/" ++ stageForColumn columnName) = true)
    (habs : ∀ l ∈ [stripRC projectName ++ "/triage",
        stripRC projectName ++ "/cherry-pick",
        stripRC projectName ++ "/cherry-picked"],
      l ≠ stripRC projectName ++ "/" ++ stageForColumn columnName →
        applied l = false) :
    handleProjectCardChangedEvent projectName columnName applied = [] := by
  rcases hcol with rfl | rfl | rfl
  · have e1 : stripRC projectName ++ "/" ++ ("triage" : String) =
        stripRC projectName ++ "/triage" := by
      rw [String.append_assoc]; rfl
    have hne2 : stripRC projectName ++ "/cherry-pick" ≠
        stripRC projectName ++ "/triage" := strAppend_ne_of_ne (by decide)
    have hne3 : stripRC projectName ++ "/cherry-picked" ≠
        stripRC projectName ++ "/triage" := strAppend_ne_of_ne (by decide)
    have a1 : applied (stripRC projectName ++ "/triage") = true := by
      rw [← e1]; exact happ
    have a2 : applied (stripRC projectName ++ "/cherry-pick") = false := by
      apply habs _ (by simp)
      rw [show stageForColumn "Triage" = "triage" from rfl, e1]; exact hne2
    have a3 : applied (stripRC projectName ++ "/cherry-picked") = false := by
      apply habs _ (by simp)
      rw [show stageForColumn "Triage" = "triage" from rfl, e1]; exact hne3
    simp only [handleProjectCardChangedEvent]
    simp [show stageForColumn "Triage" = "triage" from rfl, e1, a1, a2, a3,
      hne2, hne3]
  · have e1 : stripRC projectName ++ "/" ++ ("cherry-pick" : String) =
        stripRC projectName ++ "/cherry-pick" := by
      rw [String.append_assoc]; rfl
    have hne1 : stripRC projectName ++ "/triage" ≠
        stripRC projectName ++ "/cherry-pick" := strAppend_ne_of_ne (by decide)
    have hne3 : stripRC projectName ++ "/cherry-picked" ≠
        stripRC projectName ++ "/cherry-pick" := strAppend_ne_of_ne (by decide)
    have a2 : applied (stripRC projectName ++ "/cherry-pick") = true := by
      rw [← e1]; exact happ
    have a1 : applied (stripRC projectName ++ "/triage") = false := by
      apply habs _ (by simp)
      rw [show stageForColumn "Cherry Pick" = "cherry-pick" from rfl, e1]; exact hne1
    have a3 : applied (stripRC projectName ++ "/cherry-picked") = false := by
      apply habs _ (by simp)
      rw [show stageForColumn "Cherry Pick" = "cherry-pick" from rfl, e1]; exact hne3
    simp only [handleProjectCardChangedEvent]
    simp [show stageForColumn "Cherry Pick" = "cherry-pick" from rfl, e1, a1, a2,
      a3, hne1, hne3]
  · have e1 : stripRC projectName ++ "/" ++ ("cherry-picked" : String) =
        stripRC projectName ++ "/cherry-picked" := by
      rw [String.append_assoc]; rfl
    have hne1 : stripRC projectName ++ "/triage" ≠
        stripRC projectName ++ "/cherry-picked" := strAppend_ne_of_ne (by decide)
    have hne2 : stripRC projectName ++ "/cherry-pick" ≠
        stripRC projectName ++ "/cherry-picked" := strAppend_ne_of_ne (by decide)
    have a3 : applied (stripRC projectName ++ "/cherry-picked") = true := by
      rw [← e1]; exact happ
    have a1 : applied (stripRC projectName ++ "/triage") = false := by
      apply habs _ (by simp)
      rw [show stageForColumn "Cherry Picked" = "cherry-picked" from rfl, e1]
      exact hne1
    have a2 : applied (stripRC projectName ++ "/cherry-pick") = false := by
      apply habs _ (by simp)
      rw [show stageForColumn "Cherry Picked" = "cherry-picked" from rfl, e1]
      exact hne2
    simp only [handleProjectCardChangedEvent]
    simp [show stageForColumn "Cherry Picked" = "cherry-picked" from rfl, e1, a1,
      a2, a3, hne1, hne2]

/-- Witness for C5: board `18.09-ee-rc1`, card in `Triage`, issue carrying
exactly the label `18.09-ee/triage` — no label calls are issued. -/
theorem handleProjectCardChangedEvent_c5_witness :
    handleProjectCardChangedEvent "18.09-ee-rc1" "Triage"
      (fun l => l == "18.09-ee/triage") = [] :=
  handleProjectCardChangedEvent_c5 "18.09-ee-rc1" "Triage"
    (fun l => l == "18.09-ee/triage") (Or.inl rfl) (by decide) (by decide)

/-- C4 (code bug, argument swap): for a board `18.09-ee-rc1` created on
`docker/release-tracking`, the handler calls `allLabels(owner, name)` against
the `allLabels(name, owner)` signature, so the existing-label lookup goes to
the swapped repository `release-tracking/docker`; it fails, the handler
returns, and only the three columns are created — none of the three canonical
labels the claim requires, even though the event's repository lists its labels
successfully. -/
theorem handleProjectCreatedEvent_c4_bug :
    c4Env.repoLabels "docker" "release-tracking" = .ok ["18.09-ee/triage"] ∧
      allLabels c4Env "docker" "release-tracking" = .error () ∧
      handleProjectCreatedEvent c4Env "18.09-ee-rc1" "docker" "release-tracking" =
        [.createColumn "Triage", .createColumn "Cherry Pick",
          .createColumn "Cherry Picked"] := by
  exact ⟨rfl, rfl, rfl⟩

theorem lastSome_append (f : α → Option β) (l1 l2 : List α) :
    lastSome f (l1 ++ l2) = (lastSome f l2).elim (lastSome f l1) some := by
  induction l1 with
  | nil =>
    simp only [List.nil_append, lastSome]
    cases h : lastSome f l2 <;> simp [h]
  | cons x rest ih =>
    simp only [List.cons_append, lastSome, List.append_eq]
    rw [ih]
    cases h : lastSome f l2 <;> simp [lastSome]

theorem lastSome_map (f : α → Option β) (g : γ → α) (l : List γ) :
    lastSome f (l.map g) = lastSome (fun x => f (g x)) l := by
  induction l with
  | nil => rfl
  | cons x rest ih => simp [lastSome, ih]

theorem lastSome_eq_none_iff (q : α → Prop) [DecidablePred q] (l : List α) :
    lastSome (fun x => if q x then some x else none) l = none ↔
      ∀ x ∈ l, ¬ q x := by
  induction l with
  | nil => simp [lastSome]
  | cons x rest ih =>
    simp only [lastSome]
    cases h : lastSome (fun x => if q x then some x else none) rest with
    | some b =>
      simp only [Option.elim]
      constructor
      · intro hc
        exact absurd hc (by simp)
      · intro hall
        rw [ih.mpr (fun y hy => hall y (List.mem_cons_of_mem x hy))] at h
        exact absurd h (by simp)
    | none =>
      rw [ih] at h
      simp only [Option.elim]
      by_cases hq : q x
      · simp [hq]
      · simp [hq, h]
        intro y hy
        exact h y hy

theorem lastSome_of_filter_singleton (q : α → Prop) [DecidablePred q]
    (l : List α) (a : α)
    (h : l.filter (fun x => decide (q x)) = [a]) :
    lastSome (fun x => if q x then some x else none) l = some a := by
  induction l with
  | nil => simp at h
  | cons x rest ih =>
    rw [List.filter_cons] at h
    by_cases hq : q x
    · rw [if_pos (by simpa using hq)] at h
      obtain ⟨rfl, hrest⟩ : x = a ∧ rest.filter (fun x => decide (q x)) = [] := by
        constructor
        · exact (List.cons.injEq _ _ _ _ ▸ h).1
        · exact (List.cons.injEq _ _ _ _ ▸ h).2
      have hnone : lastSome (fun x => if q x then some x else none) rest = none := by
        rw [lastSome_eq_none_iff]
        intro y hy
        have := List.filter_eq_nil_iff.mp hrest y hy
        simpa using this
      simp [lastSome, hnone, hq]
    · rw [if_neg (by simpa using hq)] at h
      simp [lastSome, ih h]

theorem lastSome_comp_map (g : α → Option β) (h : β → γ) (l : List α) :
    lastSome (fun x => (g x).map h) l = (lastSome g l).map h := by
  induction l with
  | nil => rfl
  | cons x rest ih =>
    simp only [lastSome, ih]
    cases hl : lastSome g rest <;> simp

theorem scanCards_dest (col : ProjectColumn) (u : String) (st : LabelScan)
    (cards : List ProjectCard) :
    (scanCards col u st cards).destColumn = st.destColumn ∧
      (scanCards col u st cards).columnID = st.columnID := by
  induction cards generalizing st with
  | nil => exact ⟨rfl, rfl⟩
  | cons c rest ih =>
    rw [show scanCards col u st (c :: rest) =
      scanCards col u (if c.contentURL = u then
        { st with sourceColumn := col, cardID := c.id } else st) rest from rfl]
    rcases ih (if c.contentURL = u then
      { st with sourceColumn := col, cardID := c.id } else st) with ⟨h2, h3⟩
    rw [h2, h3]
    by_cases h : c.contentURL = u <;> simp [h]

theorem scanCards_source (col : ProjectColumn) (u : String) (st : LabelScan)
    (cards : List ProjectCard) :
    (scanCards col u st cards).sourceColumn =
      ((lastSome (fun c : ProjectCard =>
        if c.contentURL = u then some c else none) cards).map
          (fun _ => col)).getD st.sourceColumn ∧
    (scanCards col u st cards).cardID =
      ((lastSome (fun c : ProjectCard =>
        if c.contentURL = u then some c else none) cards).map
          (fun k => k.id)).getD st.cardID := by
  induction cards generalizing st with
  | nil => exact ⟨rfl, rfl⟩
  | cons c rest ih =>
    rw [show scanCards col u st (c :: rest) =
      scanCards col u (if c.contentURL = u then
        { st with sourceColumn := col, cardID := c.id } else st) rest from rfl]
    rcases ih (if c.contentURL = u then
      { st with sourceColumn := col, cardID := c.id } else st) with ⟨h2, h3⟩
    rw [h2, h3]
    simp only [lastSome]
    cases hl : lastSome (fun c : ProjectCard =>
        if c.contentURL = u then some c else none) rest with
    | some k => simp
    | none =>
      simp only [Option.elim]
      by_cases h : c.contentURL = u <;> simp [h]

theorem scanStep_source (u n : String) (st : LabelScan)
    (e : ProjectColumn × List ProjectCard) :
    (scanStep u n st e).sourceColumn =
      ((lastSome (fun c : ProjectCard =>
        if c.contentURL = u then some c else none) e.2).map
          (fun _ => e.1)).getD st.sourceColumn ∧
    (scanStep u n st e).cardID =
      ((lastSome (fun c : ProjectCard =>
        if c.contentURL = u then some c else none) e.2).map
          (fun k => k.id)).getD st.cardID := by
  unfold scanStep
  rcases scanCards_source e.1 u (if e.1.name = n then
    { st with destColumn := e.1, columnID := e.1.id } else st) e.2 with ⟨h1, h2⟩
  rw [h1, h2]
  by_cases h : e.1.name = n <;> simp [h]

theorem scanBoard_dest_aux (u n : String)
    (board : List (ProjectColumn × List ProjectCard)) :
    ∀ st : LabelScan,
      (board.foldl (scanStep u n) st).destColumn =
        (lastColMatch board n).getD st.destColumn ∧
      (board.foldl (scanStep u n) st).columnID =
        ((lastColMatch board n).map (fun c => c.id)).getD st.columnID := by
  induction board with
  | nil => intro st; exact ⟨rfl, rfl⟩
  | cons e rest ih =>
    intro st
    rw [show (e :: rest).foldl (scanStep u n) st =
      rest.foldl (scanStep u n) (scanStep u n st e) from rfl]
    rcases ih (scanStep u n st e) with ⟨h2, h3⟩
    rw [h2, h3]
    rcases scanCards_dest e.1 u (if e.1.name = n then
      { st with destColumn := e.1, columnID := e.1.id } else st) e.2 with ⟨h4, h5⟩
    have hd : (scanStep u n st e).destColumn =
        if e.1.name = n then e.1 else st.destColumn := by
      unfold scanStep
      rw [h4]
      by_cases h : e.1.name = n <;> simp [h]
    have hc : (scanStep u n st e).columnID =
        if e.1.name = n then e.1.id else st.columnID := by
      unfold scanStep
      rw [h5]
      by_cases h : e.1.name = n <;> simp [h]
    rw [hd, hc]
    simp only [lastColMatch, lastSome]
    cases hl : lastSome (fun e : ProjectColumn × List ProjectCard =>
        if e.1.name = n then some e.1 else none) rest with
    | some k => simp
    | none =>
      simp only [Option.elim]
      by_cases h : e.1.name = n <;> simp [h]

theorem scanBoard_source_aux (u n : String)
    (board : List (ProjectColumn × List ProjectCard)) :
    ∀ st : LabelScan,
      (board.foldl (scanStep u n) st).sourceColumn =
        ((lastSome (fun pr : ProjectColumn × ProjectCard =>
          if pr.2.contentURL = u then some pr else none) (boardPairs board)).map
            (fun pr => pr.1)).getD st.sourceColumn ∧
      (board.foldl (scanStep u n) st).cardID =
        ((lastSome (fun pr : ProjectColumn × ProjectCard =>
          if pr.2.contentURL = u then some pr else none) (boardPairs board)).map
            (fun pr => pr.2.id)).getD st.cardID := by
  induction board with
  | nil => intro st; exact ⟨rfl, rfl⟩
  | cons e rest ih =>
    intro st
    rw [show (e :: rest).foldl (scanStep u n) st =
      rest.foldl (scanStep u n) (scanStep u n st e) from rfl]
    rcases ih (scanStep u n st e) with ⟨h2, h3⟩
    rw [h2, h3]
    have hbp : boardPairs (e :: rest) =
        (e.2.map (fun c => (e.1, c))) ++ boardPairs rest := by
      simp [boardPairs]
    rw [hbp, lastSome_append, lastSome_map]
    have hfun : (fun c : ProjectCard =>
        if (((e.1, c) : ProjectColumn × ProjectCard)).2.contentURL = u then
          some ((e.1, c) : ProjectColumn × ProjectCard) else none) =
        (fun c : ProjectCard =>
          ((if c.contentURL = u then some c else none).map (fun k => (e.1, k)))) := by
      funext c
      by_cases h : c.contentURL = u <;> simp [h]
    rw [hfun, lastSome_comp_map]
    rcases scanStep_source u n st e with ⟨h4, h5⟩
    cases hl2 : lastSome (fun pr : ProjectColumn × ProjectCard =>
        if pr.2.contentURL = u then some pr else none) (boardPairs rest) with
    | some k => simp
    | none =>
      simp only [Option.elim]
      rw [h4, h5]
      cases hg : lastSome (fun c : ProjectCard =>
          if c.contentURL = u then some c else none) e.2 with
      | some k => simp
      | none => simp

/-- C2: for a label-added event whose label parses and whose destination column
resolves (the scan's last name-match `dc`, a non-zero-value column), under the
data-model invariant that the issue has at most one card on the board:
with no matching card anywhere, exactly one card is created in the destination
column with content type `PullRequest` for a pull request and `Issue`
otherwise; with the matching card already in the destination column, the event
is a no-op; with the matching card in a column with a different id, that card
is moved to the destination column at position `top` and nothing is created. -/
theorem handleLabelEvent_c2 (board : List (ProjectColumn × List ProjectCard))
    (labelName issueURL : String) (issueID : Nat) (isPR : Bool)
    (pre suf : String) (dc : ProjectColumn)
    (hsplit : splitLabel labelName = some (pre, suf))
    (hdest : lastColMatch board (columnNameFor suf) = some dc)
    (hdcne : dc ≠ emptyColumn) :
    (cardMatches board issueURL = [] →
      handleLabelEvent board labelName issueURL issueID isPR =
        some (.createCard dc.id issueID
          (if isPR then "PullRequest" else "Issue"))) ∧
    (∀ k : ProjectCard, cardMatches board issueURL = [(dc, k)] → k.id ≠ 0 →
      handleLabelEvent board labelName issueURL issueID isPR = some .noop) ∧
    (∀ (sc : ProjectColumn) (k : ProjectCard),
      cardMatches board issueURL = [(sc, k)] → k.id ≠ 0 → sc.id ≠ dc.id →
      handleLabelEvent board labelName issueURL issueID isPR =
        some (.moveCard k.id "top" dc.id)) := by
  have hsb : scanBoard board issueURL (columnNameFor suf) =
      board.foldl (scanStep issueURL (columnNameFor suf)) initScan := rfl
  rcases scanBoard_dest_aux issueURL (columnNameFor suf) board initScan with ⟨hd, hcid⟩
  rw [hdest] at hd hcid
  rw [← hsb] at hd hcid
  simp only [Option.getD_some, Option.map_some'] at hd hcid
  rcases scanBoard_source_aux issueURL (columnNameFor suf) board initScan with ⟨hs, hk⟩
  rw [← hsb] at hs hk
  have hu : handleLabelEvent board labelName issueURL issueID isPR =
      (if (scanBoard board issueURL (columnNameFor suf)).destColumn = emptyColumn
       then none
       else if (scanBoard board issueURL (columnNameFor suf)).cardID = 0 then
         some (.createCard (scanBoard board issueURL (columnNameFor suf)).columnID
           issueID (if isPR then "PullRequest" else "Issue"))
       else if (scanBoard board issueURL (columnNameFor suf)).sourceColumn.id =
           (scanBoard board issueURL (columnNameFor suf)).destColumn.id then
         some .noop
       else
         some (.moveCard (scanBoard board issueURL (columnNameFor suf)).cardID
           "top" (scanBoard board issueURL (columnNameFor suf)).columnID)) := by
    unfold handleLabelEvent
    rw [hsplit]
  refine ⟨?_, ?_, ?_⟩
  · intro hm
    have hnone : lastSome (fun pr : ProjectColumn × ProjectCard =>
        if pr.2.contentURL = issueURL then some pr else none) (boardPairs board) =
        none := by
      rw [lastSome_eq_none_iff]
      intro x hx
      have := List.filter_eq_nil_iff.mp hm x hx
      simpa using this
    rw [hnone] at hk
    simp only [Option.map_none', Option.getD_none] at hk
    rw [hu, if_neg (hd ▸ hdcne), if_pos (by rw [hk]; rfl), hcid]
  · intro k hm hk0
    have hsome : lastSome (fun pr : ProjectColumn × ProjectCard =>
        if pr.2.contentURL = issueURL then some pr else none) (boardPairs board) =
        some (dc, k) :=
      lastSome_of_filter_singleton
        (fun pr : ProjectColumn × ProjectCard => pr.2.contentURL = issueURL)
        (boardPairs board) (dc, k) hm
    rw [hsome] at hs hk
    simp only [Option.map_some', Option.getD_some] at hs hk
    rw [hu, if_neg (hd ▸ hdcne), if_neg (by rw [hk]; exact hk0), if_pos (by
      rw [hs, hd])]
  · intro sc k hm hk0 hne
    have hsome : lastSome (fun pr : ProjectColumn × ProjectCard =>
        if pr.2.contentURL = issueURL then some pr else none) (boardPairs board) =
        some (sc, k) :=
      lastSome_of_filter_singleton
        (fun pr : ProjectColumn × ProjectCard => pr.2.contentURL = issueURL)
        (boardPairs board) (sc, k) hm
    rw [hsome] at hs hk
    simp only [Option.map_some', Option.getD_some] at hs hk
    rw [hu, if_neg (hd ▸ hdcne), if_neg (by rw [hk]; exact hk0), if_neg (by
      rw [hs, hd]; exact hne), hk, hcid]

/-- Witness for C2 on a concrete board: label `18.09-ee/cherry-pick` on an
issue whose card sits in `Triage` — the card is moved to `Cherry Pick` at the
top. -/
theorem handleLabelEvent_c2_witness :
    handleLabelEvent [(⟨1, "Triage"⟩, [⟨7, "u1"⟩]), (⟨2, "Cherry Pick"⟩, [])]
      "18.09-ee/cherry-pick" "u1" 42 false = some (.moveCard 7 "top" 2) :=
  (handleLabelEvent_c2 [(⟨1, "Triage"⟩, [⟨7, "u1"⟩]), (⟨2, "Cherry Pick"⟩, [])]
    "18.09-ee/cherry-pick" "u1" 42 false "18.09-ee" "cherry-pick"
    ⟨2, "Cherry Pick"⟩ (by rfl) (by rfl) (by decide)).2.2
    ⟨1, "Triage"⟩ ⟨7, "u1"⟩ (by rfl) (by decide) (by decide)

theorem releaseBotLoop_congr (obs obs2 : Nat → Except Unit Nat) (fuel : Nat) :
    ∀ retries cl, (∀ i, retries ≤ i → i < retries + fuel → obs i = obs2 i) →
      releaseBotLoop obs fuel retries cl = releaseBotLoop obs2 fuel retries cl := by
  induction fuel with
  | zero => intro r cl h; rfl
  | succ fuel ih =>
    intro r cl h
    simp only [releaseBotLoop]
    split
    · rw [h r (le_refl r) (by omega)]
      cases obs2 r with
      | error e => rfl
      | ok n => exact ih (r + 1) n (fun i hi1 hi2 => h i (by omega) (by omega))
    · rfl

/-- C7: the provisioning poll issues at most 3 column-count checks — its result
depends only on the outcomes of the checks at `retries = 1, 2, 3` — and always
terminates (it is a total function); it reports success iff one of the (at
most three) checks observes exactly 3 columns, every earlier check having
succeeded with a different count; and the dependent board creation succeeds iff
the poll reports success, failing otherwise with the
provisioning-did-not-complete error (or the propagated listing error). -/
theorem releaseBotDone_c7 (obs obs2 : Nat → Except Unit Nat) :
    ((∀ i, 1 ≤ i → i ≤ 3 → obs i = obs2 i) →
      releaseBotDone obs = releaseBotDone obs2) ∧
    (releaseBotDone obs = .ok true ↔
      (obs 1 = .ok 3 ∨
        ∃ a, obs 1 = .ok a ∧ a ≠ 3 ∧
          (obs 2 = .ok 3 ∨
            ∃ b, obs 2 = .ok b ∧ b ≠ 3 ∧ obs 3 = .ok 3))) ∧
    (createProjectAfterPoll (releaseBotDone obs) = .ok ↔
      releaseBotDone obs = .ok true) := by
  refine ⟨?_, ?_, ?_⟩
  · intro hag
    unfold releaseBotDone
    rw [releaseBotLoop_congr obs obs2 3 1 0 (fun i hi1 hi2 => hag i hi1 (by omega))]
  · rcases h1 : obs 1 with ⟨⟩ | n1
    · simp [releaseBotDone, releaseBotLoop, Except.map, h1]
    · by_cases hn1 : n1 = 3
      · subst hn1
        simp [releaseBotDone, releaseBotLoop, Except.map, h1]
      · rcases h2 : obs 2 with ⟨⟩ | n2
        · simp [releaseBotDone, releaseBotLoop, Except.map, h1, h2, hn1]
        · by_cases hn2 : n2 = 3
          · subst hn2
            simp [releaseBotDone, releaseBotLoop, Except.map, h1, h2, hn1]
          · rcases h3 : obs 3 with ⟨⟩ | n3
            · simp [releaseBotDone, releaseBotLoop, Except.map, h1, h2, h3, hn1, hn2]
            · by_cases hn3 : n3 = 3
              · subst hn3
                simp [releaseBotDone, releaseBotLoop, Except.map, h1, h2, h3, hn1, hn2]
              · simp [releaseBotDone, releaseBotLoop, Except.map, h1, h2, h3, hn1, hn2, hn3]
  · rcases hr : releaseBotDone obs with ⟨⟩ | b
    · simp [createProjectAfterPoll]
    · cases b <;> simp [createProjectAfterPoll]

/-- Witness for C7: the first check sees 1 column, the second sees 3 — the poll
succeeds and the dependent creation proceeds. -/
theorem releaseBotDone_c7_witness :
    releaseBotDone (fun i => if i = 2 then .ok 3 else .ok 1) = .ok true ∧
      createProjectAfterPoll
        (releaseBotDone (fun i => if i = 2 then .ok 3 else .ok 1)) = .ok := by
  have h := (releaseBotDone_c7 (fun i => if i = 2 then .ok 3 else .ok 1)
    (fun i => if i = 2 then .ok 3 else .ok 1)).2.1.mpr
    (Or.inr ⟨1, rfl, by decide, Or.inl rfl⟩)
  exact ⟨h, (releaseBotDone_c7 (fun i => if i = 2 then .ok 3 else .ok 1)
    (fun i => if i = 2 then .ok 3 else .ok 1)).2.2.mpr h⟩

/-- C1 counterexample: for source cards with priorities p1, p0, none, p2 (in
that column order), the migrated destination column reads top-to-bottom
none, p0, p1, p2 — the unprioritized bucket is created LAST (main.go:435), so
with top insertion its cards end up on top — not p0, p1, p2, none as the claim
states. -/
theorem moveIssues_c1_counterexample :
    migrateColumnDest c1Issues c1Cards [] = some [3, 2, 1, 4] ∧
      some [3, 2, 1, 4] ≠ some [2, 1, 4, 3] := by
  exact ⟨rfl, by decide⟩

theorem bucketize_go (issues : List MigIssue) :
    ∀ (cards : List MigCard) (b : Buckets),
      (∀ c ∈ cards, (prioOf issues c).isSome) →
      cards.foldl (bucketStep issues) (some b) = some
        ⟨b.p0 ++ cards.filter (isPrio issues "p0"),
         b.p1 ++ cards.filter (isPrio issues "p1"),
         b.p2 ++ cards.filter (isPrio issues "p2"),
         b.noP ++ cards.filter (noPrio issues)⟩ := by
  intro cards
  induction cards with
  | nil => intro b h; simp
  | cons c rest ih =>
    intro b h
    have hc := h c (List.mem_cons_self c rest)
    obtain ⟨pr, hpr⟩ := Option.isSome_iff_exists.mp hc
    obtain ⟨iss, hiss, hcp⟩ : ∃ iss, getRelatedIssue c issues = some iss ∧
        cardPriority iss.labels = some pr := by
      unfold prioOf at hpr
      cases hgi : getRelatedIssue c issues with
      | none => rw [hgi] at hpr; simp at hpr
      | some iss =>
        rw [hgi] at hpr
        simp only [Option.some_bind] at hpr
        exact ⟨iss, rfl, hpr⟩
    rw [show (c :: rest).foldl (bucketStep issues) (some b) =
      rest.foldl (bucketStep issues) (bucketStep issues (some b) c) from rfl]
    have hstep : bucketStep issues (some b) c = some
        (if pr = "p0" then { b with p0 := b.p0 ++ [c] }
         else if pr = "p1" then { b with p1 := b.p1 ++ [c] }
         else if pr = "p2" then { b with p2 := b.p2 ++ [c] }
         else { b with noP := b.noP ++ [c] }) := by
      simp [bucketStep, hiss, hcp]
    rw [hstep]
    have hrest : ∀ x ∈ rest, (prioOf issues x).isSome :=
      fun x hx => h x (List.mem_cons_of_mem c hx)
    by_cases h0 : pr = "p0"
    · subst h0
      rw [if_pos rfl, ih _ hrest]
      simp [List.filter_cons, isPrio, noPrio, hpr]
    · by_cases h1 : pr = "p1"
      · subst h1
        rw [if_neg h0, if_pos rfl, ih _ hrest]
        simp [List.filter_cons, isPrio, noPrio, hpr, h0]
      · by_cases h2 : pr = "p2"
        · subst h2
          rw [if_neg h0, if_neg h1, if_pos rfl, ih _ hrest]
          simp [List.filter_cons, isPrio, noPrio, hpr, h0, h1]
        · rw [if_neg h0, if_neg h1, if_neg h2, ih _ hrest]
          simp [List.filter_cons, isPrio, noPrio, hpr, h0, h1, h2]

theorem bucketize_eq_filter (issues : List MigIssue) (cards : List MigCard)
    (h : ∀ c ∈ cards, (prioOf issues c).isSome) :
    bucketize issues cards = some
      ⟨cards.filter (isPrio issues "p0"), cards.filter (isPrio issues "p1"),
       cards.filter (isPrio issues "p2"), cards.filter (noPrio issues)⟩ := by
  have hb := bucketize_go issues cards ⟨[], [], [], []⟩ h
  simpa [bucketize] using hb

theorem createList_eq (issues : List MigIssue) :
    ∀ (cards : List MigCard) (dest : List Nat),
      (∀ c ∈ cards, (getRelatedIssue c issues).isSome) →
      createList issues cards dest =
        some ((cards.map (relatedId issues)).reverse ++ dest) := by
  intro cards
  induction cards with
  | nil => intro dest h; simp [createList]
  | cons c rest ih =>
    intro dest h
    obtain ⟨iss, hiss⟩ :=
      Option.isSome_iff_exists.mp (h c (List.mem_cons_self c rest))
    have hrid : relatedId issues c = iss.id := by simp [relatedId, hiss]
    simp only [createList, hiss, Option.some_bind]
    rw [ih (iss.id :: dest) (fun x hx => h x (List.mem_cons_of_mem c hx))]
    simp [hrid, List.append_assoc]

theorem getRelatedIssue_isSome_of_prio (issues : List MigIssue) (c : MigCard)
    (h : (prioOf issues c).isSome) : (getRelatedIssue c issues).isSome := by
  unfold prioOf at h
  cases hgi : getRelatedIssue c issues with
  | none => rw [hgi] at h; simp at h
  | some iss => simp

/-- C1 (amended): for a migrated column whose cards all resolve to an issue
with a well-formed priority (the claim's partition premise), the destination
column reads top-to-bottom: all UNPRIORITIZED cards first, then all p0, then
all p1, then all p2 cards (each bucket reversed relative to source order),
above the previous destination content — because the buckets are created in
the order p2, p1, p0, none and each creation inserts at the top, the bucket
created last (the unprioritized one) ends nearest the top. -/
theorem moveIssues_c1_amended (issues : List MigIssue) (cards : List MigCard)
    (dest : List Nat) (h : ∀ c ∈ cards, (prioOf issues c).isSome) :
    migrateColumnDest issues cards dest = some
      (((cards.filter (noPrio issues)).map (relatedId issues)).reverse ++
       (((cards.filter (isPrio issues "p0")).map (relatedId issues)).reverse ++
        (((cards.filter (isPrio issues "p1")).map (relatedId issues)).reverse ++
         (((cards.filter (isPrio issues "p2")).map (relatedId issues)).reverse ++
          dest)))) := by
  have hres : ∀ (s : String) (c : MigCard), c ∈ cards.filter (isPrio issues s) →
      (getRelatedIssue c issues).isSome := fun s c hc =>
    getRelatedIssue_isSome_of_prio issues c (h c (List.mem_of_mem_filter hc))
  have hresN : ∀ c ∈ cards.filter (noPrio issues),
      (getRelatedIssue c issues).isSome := fun c hc =>
    getRelatedIssue_isSome_of_prio issues c (h c (List.mem_of_mem_filter hc))
  unfold migrateColumnDest
  rw [bucketize_eq_filter issues cards h]
  simp only [Option.some_bind]
  rw [createList_eq issues _ dest (hres "p2")]
  simp only [Option.some_bind]
  rw [createList_eq issues _ _ (hres "p1")]
  simp only [Option.some_bind]
  rw [createList_eq issues _ _ (hres "p0")]
  simp only [Option.some_bind]
  rw [createList_eq issues _ _ hresN]

/-- Witness for the amended C1 theorem at the spec's p1, p0, none, p2
scenario: the destination reads none, p0, p1, p2 top-to-bottom. -/
theorem moveIssues_c1_amended_witness :
    migrateColumnDest c1Issues c1Cards [] = some [3, 2, 1, 4] :=
  (moveIssues_c1_amended c1Issues c1Cards [] (by decide)).trans (by rfl)

theorem moveIssuesColumnTrace_dryrun (issues : List MigIssue)
    (cards : List MigCard) : moveIssuesColumnTrace true issues cards = [] := by
  unfold moveIssuesColumnTrace
  cases bucketize issues cards with
  | none => rfl
  | some b => simp [deleteCardsTrace, createCardsTrace]

/-- C9: in a non-dry-run migration with both boards resolved, every delete-card
and create-card call in the issued-call trace comes strictly after the call
closing the source board, which is the first call issued; in dry-run mode no
close-state update is issued at all (nor any other mutation). -/
theorem mainTrace_c9 (sourceProjectID : Nat) (issues : List MigIssue)
    (columnCards : List (List MigCard)) :
    (∀ k op, (mainTrace false sourceProjectID issues columnCards)[k]? = some op →
      isCardOp op = true →
      0 < k ∧ (mainTrace false sourceProjectID issues columnCards)[0]? =
        some (.updateProject sourceProjectID "closed")) ∧
    (MigOp.updateProject sourceProjectID "closed" ∉
      mainTrace true sourceProjectID issues columnCards) := by
  constructor
  · intro k op hk hop
    have ht : mainTrace false sourceProjectID issues columnCards =
        .updateProject sourceProjectID "closed" ::
          moveIssuesTrace false issues columnCards := rfl
    constructor
    · rcases k with _ | k
      · rw [ht] at hk
        simp only [List.getElem?_cons_zero] at hk
        rw [← Option.some.inj hk] at hop
        simp [isCardOp] at hop
      · exact Nat.succ_pos k
    · rw [ht]
      simp
  · have ht : moveIssuesTrace true issues columnCards = [] := by
      unfold moveIssuesTrace
      induction columnCards with
      | nil => rfl
      | cons cs rest ih =>
        simp [moveIssuesColumnTrace_dryrun, ih]
    unfold mainTrace
    rw [ht]
    simp

/-- Witness for C9: in the concrete non-dry-run scenario the first issued call
closes the source board, and the first card mutation (a delete) comes after
it. -/
theorem mainTrace_c9_witness :
    0 < 1 ∧ (mainTrace false 7 c1Issues [c1Cards])[0]? =
      some (.updateProject 7 "closed") :=
  (mainTrace_c9 7 c1Issues [c1Cards]).1 1 (.deleteCard 14) (by rfl) (by rfl)

/-- C8 counterexample: a creation error carrying no HTTP response (transport
failure: `err != nil`, `resp == nil`) makes `resp.StatusCode` dereference a nil
pointer — the run crashes (`none`) on the first card and the second card is
never processed, so it is not true that every creation error is merely logged
and that no creation error terminates the run. -/
theorem createCards_c8_counterexample :
    createCardsLogs (fun _ => .noResponse) c1Issues [⟨11, "u1"⟩, ⟨12, "u2"⟩] =
      none := by
  rfl

/-- C8 (amended): for every bucket whose cards resolve to issues and whose
creation errors all carry an HTTP response, the run processes every card and
terminates normally: a 422 response contributes a duplicate warning and
processing continues, a 402 response is silently tolerated, any other
error-with-response is logged as an error, and none of them halts the
remaining cards.  A creation error with no HTTP response, however, crashes the
run on a nil-pointer dereference of `resp.StatusCode`. -/
theorem createCards_c8_amended (outcome : Nat → CreateOutcome)
    (issues : List MigIssue) :
    ∀ cards : List MigCard,
      (∀ c ∈ cards, (getRelatedIssue c issues).isSome ∧
        outcome c.id ≠ .noResponse) →
      createCardsLogs outcome issues cards =
        some (cards.flatMap (createLogFor outcome issues)) := by
  intro cards
  induction cards with
  | nil => intro h; rfl
  | cons c rest ih =>
    intro h
    obtain ⟨hiss0, hnr⟩ := h c (List.mem_cons_self c rest)
    obtain ⟨iss, hiss⟩ := Option.isSome_iff_exists.mp hiss0
    have hrid : relatedId issues c = iss.id := by simp [relatedId, hiss]
    have hrest := ih (fun x hx => h x (List.mem_cons_of_mem c hx))
    simp only [createCardsLogs, hiss, Option.some_bind, List.flatMap_cons]
    rcases ho : outcome c.id with _ | s | _
    · simp [hrest, createLogFor, ho, hrid]
    · by_cases h402 : s = 402
      · subst h402
        simp [hrest, createLogFor, ho, hrid]
      · by_cases h422 : s = 422
        · subst h422
          simp [hrest, createLogFor, ho, hrid]
        · simp [hrest, createLogFor, ho, hrid, h402, h422]
    · exact absurd ho hnr

/-- Witness for the amended C8 theorem: outcomes 422, 402, 500 and success on
the four cards — a warning, a silent pass, a logged error, and all four cards
processed to the end. -/
theorem createCards_c8_amended_witness :
    createCardsLogs
      (fun cid => if cid = 11 then .httpErr 422 else if cid = 12 then
        .httpErr 402 else if cid = 13 then .httpErr 500 else .ok)
      c1Issues c1Cards =
      some [.warnDuplicate 1, .infoMove 1, .infoMove 2,
        .errorLogged 3, .infoMove 3, .infoMove 4] :=
  (createCards_c8_amended
    (fun cid => if cid = 11 then .httpErr 422 else if cid = 12 then
      .httpErr 402 else if cid = 13 then .httpErr 500 else .ok)
    c1Issues c1Cards (by decide)).trans (by rfl)
